import Mathlib

/-!
Shallow embedding of the go-expanse node control plane
(`eth/backend.go`, `core/events.go`, `rpc/xeth.go`) and proofs of the
specified properties: peer-capacity balancing, orchestrator construction
(genesis compatibility, schema-version check), etherbase resolution and
mining startup, the shutdown sequence, the event vocabulary, and the thin
remote-call client.

Go machine integers are modelled as `Int` (Go `int`, division truncating
toward zero via `Int.tdiv`) and `Nat` with explicit `% 2 ^ 32` (Go
`uint32`). Fallible operations return `Option`/`Except`. Collaborator
subsystems that are not part of the sources (database, chain store,
protocol manager, miner, event mux, transport) enter as abstract outcome
parameters; their calls are recorded as trace events where ordering
matters.
-/

namespace Expanse

/-! ## Peer capacity balancing (eth/backend.go, New, lines 204-213)

```go
maxPeers := config.MaxPeers
if config.LightServ > 0 {
    halfPeers := maxPeers / 2
    maxPeers -= config.LightPeers
    if maxPeers < halfPeers {
        maxPeers = halfPeers
    }
}
```
Go `int` division truncates toward zero, hence `Int.tdiv`. -/

def peerCapacity (lightServ maxPeers lightPeers : ℤ) : ℤ :=
  if lightServ > 0 then
    let halfPeers := Int.tdiv maxPeers 2
    let reduced := maxPeers - lightPeers
    if reduced < halfPeers then halfPeers else reduced
  else
    maxPeers

/-! ## Event vocabulary (core/events.go)

Payload carrier types; their internals are irrelevant to the event
vocabulary, only their presence and multiplicity in each event. -/

structure Transaction where
  ref : ℕ
deriving DecidableEq

structure Block where
  ref : ℕ
deriving DecidableEq

structure Logs where
  ref : ℕ
deriving DecidableEq

structure Hash where
  ref : ℕ
deriving DecidableEq

structure BigInt where
  val : ℤ
deriving DecidableEq

/-- The closed tagged union of event types declared in core/events.go,
one constructor per Go struct type, with the same payload fields. -/
inductive CoreEvent
  | txPreEvent (tx : Transaction)
  | txPostEvent (tx : Transaction)
  | newBlockEvent (block : Block)
  | newMinedBlockEvent (block : Block)
  | chainSplitEvent (block : Block) (logs : Logs)
  | chainEvent (block : Block) (hash : Hash) (logs : Logs)
  | chainSideEvent (block : Block) (logs : Logs)
  | pendingBlockEvent (block : Block) (logs : Logs)
  | chainUncleEvent (block : Block)
  | chainHeadEvent (block : Block)
  | gasPriceChanged (price : BigInt)
  | startMining
  | topMining
deriving DecidableEq

/-- The tag (Go struct type) of an event, forgetting the payload. -/
inductive EventKind
  | txPre
  | txPost
  | newBlock
  | newMined
  | chainSplit
  | chain
  | chainSide
  | pendingBlock
  | chainUncle
  | chainHead
  | gasPrice
  | miningStarted
  | miningStopped
deriving DecidableEq

def CoreEvent.kind : CoreEvent → EventKind
  | .txPreEvent _ => .txPre
  | .txPostEvent _ => .txPost
  | .newBlockEvent _ => .newBlock
  | .newMinedBlockEvent _ => .newMined
  | .chainSplitEvent _ _ => .chainSplit
  | .chainEvent _ _ _ => .chain
  | .chainSideEvent _ _ => .chainSide
  | .pendingBlockEvent _ _ => .pendingBlock
  | .chainUncleEvent _ => .chainUncle
  | .chainHeadEvent _ => .chainHead
  | .gasPriceChanged _ => .gasPrice
  | .startMining => .miningStarted
  | .topMining => .miningStopped

/-- The twelve event kinds enumerated by the specification:
TxPending, TxProcessed, NewBlock, MinedBlock, ChainHead, ChainSplit,
ChainSideBlock, PendingState, UncleBlock, GasPriceChanged,
MiningStarted, MiningStopped. -/
def specEventKinds : List EventKind :=
  [.txPre, .txPost, .newBlock, .newMined, .chainHead, .chainSplit,
   .chainSide, .pendingBlock, .chainUncle, .gasPrice,
   .miningStarted, .miningStopped]

/-- The event kinds actually declared in core/events.go: the twelve of
the specification plus `ChainEvent{Block, Hash, Logs}`. -/
def codeEventKinds : List EventKind :=
  [.txPre, .txPost, .newBlock, .newMined, .chainSplit, .chain,
   .chainSide, .pendingBlock, .chainUncle, .chainHead, .gasPrice,
   .miningStarted, .miningStopped]

/-! ## Etherbase resolution and mining startup (eth/backend.go, lines 338-364)

Addresses (`common.Address`, a 20-byte value) are modelled as `Nat`;
the Go zero value `common.Address{}` is `0`. -/

def zeroAddress : ℕ := 0

structure Account where
  address : ℕ

structure Wallet where
  accounts : List Account

/-- The Account Directory collaborator (`accounts.Manager`): only its
`Wallets()` accessor is consumed here. -/
structure AccountManager where
  wallets : List Wallet

/-- The fields of the `Ethereum` orchestrator read by `Etherbase` and
`StartMining`. -/
structure MiningView where
  etherbase : ℕ
  accountManager : AccountManager

/--
```go
func (s *Ethereum) Etherbase() (eb common.Address, err error) {
    if s.etherbase != (common.Address{}) {
        return s.etherbase, nil
    }
    if wallets := s.AccountManager().Wallets(); len(wallets) > 0 {
        if accounts := wallets[0].Accounts(); len(accounts) > 0 {
            return accounts[0].Address, nil
        }
    }
    return common.Address{}, fmt.Errorf("etherbase address must be explicitly specified")
}
```
-/
def Etherbase (s : MiningView) : Except String ℕ :=
  if s.etherbase ≠ zeroAddress then
    .ok s.etherbase
  else
    match s.accountManager.wallets with
    | w :: _ =>
      match w.accounts with
      | a :: _ => .ok a.address
      | [] => .error "etherbase address must be explicitly specified"
    | [] => .error "etherbase address must be explicitly specified"

/--
```go
func (s *Ethereum) StartMining(threads int) error {
    eb, err := s.Etherbase()
    if err != nil {
        log.Error("Cannot start mining without etherbase", "err", err)
        return fmt.Errorf("etherbase missing: %v", err)
    }
    go s.miner.Start(eb, threads)
    return nil
}
```
The detached `go s.miner.Start(eb, threads)` task is recorded in the
second component: `some (eb, threads)` when a task was launched with
that reward address and thread count, `none` when not. -/
def StartMining (s : MiningView) (threads : ℤ) :
    Except String Unit × Option (ℕ × ℤ) :=
  match Etherbase s with
  | .error err => (.error ("etherbase missing: " ++ err), none)
  | .ok eb => (.ok (), some (eb, threads))

/-! ## The shutdown sequence (eth/backend.go, Stop, lines 405-422) -/

/-- The observable actions `Stop` performs, in source order:
`s.stopDbUpgrade()`, `s.blockchain.Stop()`, `s.protocolManager.Stop()`,
`s.lesServer.Stop()`, `s.txPool.Stop()`, `s.miner.Stop()`,
`s.eventMux.Stop()`, `s.chainDb.Close()`, `close(s.shutdownChan)`. -/
inductive StopStep
  | haltDbUpgrade
  | stopChainStore
  | stopProtocolManager
  | stopLesServer
  | stopTxPool
  | stopMiner
  | stopEventMux
  | closeDatabase
  | signalShutdown
deriving DecidableEq

/-- Modelled from the spec: the collaborator subsystems' stop/close
operations (`core.BlockChain.Stop`, `ProtocolManager.Stop`,
`LesServer.Stop`, `core.TxPool.Stop`, `miner.Miner.Stop`,
`event.TypeMux.Stop`, `ethdb.Database.Close`) are not in the sources;
per the spec's shutdown-error taxonomy each step may report an error
(e.g. a database close failure). `none` means the step succeeded. -/
structure StopOutcomes where
  chainStoreErr : Option String
  protocolManagerErr : Option String
  lesServerErr : Option String
  txPoolErr : Option String
  minerErr : Option String
  eventMuxErr : Option String
  dbCloseErr : Option String

/-- The fields of the orchestrator that steer `Stop`'s control flow:
whether `stopDbUpgrade` is non-nil and whether a `lesServer` add-on was
attached. -/
structure StopView where
  hasDbUpgrade : Bool
  hasLesServer : Bool

/-- The one-shot shutdown broadcast channel; `closeCount` counts the
`close(shutdownChan)` operations executed on it (a fresh channel from
`New` has count 0). -/
structure ShutdownChan where
  closeCount : ℕ

def closeChan (ch : ShutdownChan) : ShutdownChan :=
  { closeCount := ch.closeCount + 1 }

/-- The outcome of one `Stop` call: the trace of steps executed in
order, the channel after, and the value `Stop` returned (`none` = Go
`nil`). -/
structure StopExec where
  trace : List StopStep
  chanAfter : ShutdownChan
  returned : Option String

/--
```go
func (s *Ethereum) Stop() error {
    if s.stopDbUpgrade != nil {
        s.stopDbUpgrade()
    }
    s.blockchain.Stop()
    s.protocolManager.Stop()
    if s.lesServer != nil {
        s.lesServer.Stop()
    }
    s.txPool.Stop()
    s.miner.Stop()
    s.eventMux.Stop()

    s.chainDb.Close()
    close(s.shutdownChan)

    return nil
}
```
Every collaborator call is a bare statement: whatever outcome the
collaborator reports is discarded, and the function returns `nil`.
The trace is accumulated statement by statement. -/
def Stop (v : StopView) (_outcomes : StopOutcomes) (ch : ShutdownChan) :
    StopExec :=
  let t0 : List StopStep := if v.hasDbUpgrade then [.haltDbUpgrade] else []
  let t1 := t0 ++ [.stopChainStore]
  let t2 := t1 ++ [.stopProtocolManager]
  let t3 := if v.hasLesServer then t2 ++ [.stopLesServer] else t2
  let t4 := t3 ++ [.stopTxPool]
  let t5 := t4 ++ [.stopMiner]
  let t6 := t5 ++ [.stopEventMux]
  let t7 := t6 ++ [.closeDatabase]
  let t8 := t7 ++ [.signalShutdown]
  { trace := t8, chanAfter := closeChan ch, returned := none }

/-! ## Orchestrator construction (eth/backend.go, New, lines 150-234)

The collaborators `New` drives (database opening, genesis setup, bloom
mipmap upgrade, chain-store construction, protocol-manager construction)
are external to the sources; each enters as an abstract outcome. The
control flow connecting them is translated statement by statement. -/

/-- The error returned by `core.SetupGenesisBlock`:
`params.ConfigCompatError` carries a rewind target (`RewindTo`); any
other error is opaque. -/
inductive GenesisErr
  | compat (rewindTo : ℕ)
  | other (msg : String)
deriving DecidableEq

/-- The `Config` fields consumed by the construction-flow model. -/
structure Config where
  skipBcVersionCheck : Bool
  lightServ : ℤ
  lightPeers : ℤ
  maxPeers : ℤ
  etherbase : ℕ

/-- Outcomes of the external collaborator calls made by `New`, in call
order: `CreateDB`, `SetupGenesisBlock` (configuration, hash, error),
`addMipmapBloomBins`, `GetBlockChainVersion` (the stored schema
version), `core.BlockChainVersion` (the expected schema version, a
constant of the `core` package), `NewBlockChain` (its error, or the head
height of the constructed chain store), `NewProtocolManager`. -/
structure NewInputs where
  openDbErr : Option String
  genesisErr : Option GenesisErr
  mipmapErr : Option String
  storedBcVersion : ℕ
  blockChainVersion : ℕ
  newBlockChain : Except String ℕ
  newProtocolManagerErr : Option String

/-- The errors `New` can return, one constructor per `return nil, err`
site. `versionMismatch` carries the stored and the expected version. -/
inductive NewError
  | dbOpen (msg : String)
  | genesis (msg : String)
  | mipmap (msg : String)
  | versionMismatch (stored expected : ℕ)
  | blockChain (msg : String)
  | protocolManager (msg : String)
deriving DecidableEq

/-- The message each `NewError` renders;
`versionMismatch` renders the source's
`fmt.Errorf("Blockchain DB version mismatch (%d / %d). Run gexp upgradedb.\n", bcVersion, core.BlockChainVersion)`. -/
def NewError.message : NewError → String
  | .dbOpen m => m
  | .genesis m => m
  | .mipmap m => m
  | .versionMismatch stored expected =>
      "Blockchain DB version mismatch (" ++ toString stored ++ " / " ++
        toString expected ++ "). Run gexp upgradedb.\n"
  | .blockChain m => m
  | .protocolManager m => m

/-- Modelled from the spec: `core.BlockChain.SetHead` is not in the
sources; per the spec the compatibility rewind "roll[s] the chain back
to the reported safe height", so after `SetHead target` the head height
is at most `target`. -/
def SetHead (head target : ℕ) : ℕ :=
  min head target

/-- The observable outcome of a successful construction: the chain
store's head height after any compatibility rewind, whether
`WriteChainConfig` was invoked, the peer capacity handed to
`NewProtocolManager`, the schema version stamped by
`WriteBlockChainVersion` (`none` when the check was skipped), and the
configured etherbase carried into the orchestrator. -/
structure Ethereum where
  headHeight : ℕ
  chainConfigRewritten : Bool
  pmMaxPeers : ℤ
  stampedBcVersion : Option ℕ
  etherbase : ℕ
deriving DecidableEq

/-- The tail of `New` after the genesis-error triage, lines 176-233:
mipmap upgrade, schema-version check, chain-store construction,
compatibility rewind, peer balancing, protocol-manager construction.
`compat` is `some r` when `genesisErr` was a `ConfigCompatError` with
`RewindTo = r`. -/
def newFromMipmap (cfg : Config) (inp : NewInputs) (compat : Option ℕ) :
    Except NewError Ethereum :=
  match inp.mipmapErr with
  | some e => .error (.mipmap e)
  | none =>
    let versionStep : Except NewError (Option ℕ) :=
      if cfg.skipBcVersionCheck then
        .ok none
      else if inp.storedBcVersion ≠ inp.blockChainVersion ∧
          inp.storedBcVersion ≠ 0 then
        .error (.versionMismatch inp.storedBcVersion inp.blockChainVersion)
      else
        .ok (some inp.blockChainVersion)
    match versionStep with
    | .error e => .error e
    | .ok stamped =>
      match inp.newBlockChain with
      | .error e => .error (.blockChain e)
      | .ok head0 =>
        let head1 := match compat with
          | some r => SetHead head0 r
          | none => head0
        let rewritten := match compat with
          | some _ => true
          | none => false
        let maxPeers := peerCapacity cfg.lightServ cfg.maxPeers cfg.lightPeers
        match inp.newProtocolManagerErr with
        | some e => .error (.protocolManager e)
        | none =>
          .ok { headHeight := head1
                chainConfigRewritten := rewritten
                pmMaxPeers := maxPeers
                stampedBcVersion := stamped
                etherbase := cfg.etherbase }

/--
```go
func New(ctx *node.ServiceContext, config *Config) (*Ethereum, error) {
    chainDb, err := CreateDB(ctx, config, "chaindata")
    if err != nil {
        return nil, err
    }
    stopDbUpgrade := upgradeSequentialKeys(chainDb)
    chainConfig, genesisHash, genesisErr := core.SetupGenesisBlock(chainDb, config.Genesis)
    if _, ok := genesisErr.(*params.ConfigCompatError); genesisErr != nil && !ok {
        return nil, genesisErr
    }
    ...
}
```
A genesis error that is not a `ConfigCompatError` aborts construction;
a `ConfigCompatError` is carried forward as a rewind target. -/
def New (cfg : Config) (inp : NewInputs) : Except NewError Ethereum :=
  match inp.openDbErr with
  | some e => .error (.dbOpen e)
  | none =>
    match inp.genesisErr with
    | some (.other m) => .error (.genesis m)
    | some (.compat r) => newFromMipmap cfg inp (some r)
    | none => newFromMipmap cfg inp none

/-! ## The thin remote-call client (rpc/xeth.go) -/

/-- `shared.Request`: the JSON-RPC request assembled by `Call`.
`params` holds the `json.Marshal` output (raw bytes). -/
structure Request where
  id : ℕ
  jsonrpc : String
  method : String
  params : List ℕ
deriving DecidableEq

/-- The dynamic value (`interface \x7b\x7d`) produced by `Recv`: either a
`map[string]interface \x7b\x7d` (entries abstracted) or a value of some
other type, carrying its reflected type name. -/
inductive GoValue
  | goMap (entries : List (String × ℕ))
  | nonMap (typeName : String)
deriving DecidableEq

/-- `reflect.TypeOf` on the received value. -/
def GoValue.typeName : GoValue → String
  | .goMap _ => "map[string]interface \x7b\x7d"
  | .nonMap t => t

/-- The abstract transport (`comms.ExpanseClient`) together with the
outcome of `json.Marshal` on the parameter list: `marshal` gives the
encoded bytes or a marshaling error, `send` the outcome of
`client.Send` on a request, `recv` the outcome of `client.Recv`. -/
structure ClientEnv where
  marshal : Except String (List ℕ)
  send : Request → Option String
  recv : Except String GoValue

/-- `Xeth` state: the request counter, a Go `uint32` incremented with
`atomic.AddUint32` (wrapping at `2 ^ 32`). -/
structure Xeth where
  reqId : ℕ

/-- The outcome of one `Call`: the client state after, the requests
handed to `Send` (in order), and the result. -/
structure CallExec where
  stateAfter : Xeth
  sent : List Request
  result : Except String (List (String × ℕ))

/--
```go
func (self *Xeth) Call(method string, params []interface{}) (map[string]interface{}, error) {
    data, err := json.Marshal(params)
    if err != nil {
        return nil, err
    }
    req := &shared.Request{
        Id:      atomic.AddUint32(&self.reqId, 1),
        Jsonrpc: "2.0",
        Method:  method,
        Params:  data,
    }
    if err := self.client.Send(req); err != nil {
        return nil, err
    }
    res, err := self.client.Recv()
    if err != nil {
        return nil, err
    }
    value, ok := res.(map[string]interface{})
    if !ok {
        return nil, fmt.Errorf("Invalid response type: have %v, want %v", reflect.TypeOf(res), reflect.TypeOf(make(map[string]interface{})))
    }
    return value, nil
}
```
-/
def Call (env : ClientEnv) (self : Xeth) (method : String) : CallExec :=
  match env.marshal with
  | .error e => { stateAfter := self, sent := [], result := .error e }
  | .ok data =>
    let newId := (self.reqId + 1) % 2 ^ 32
    let req : Request :=
      { id := newId, jsonrpc := "2.0", method := method, params := data }
    let self1 : Xeth := { reqId := newId }
    match env.send req with
    | some e => { stateAfter := self1, sent := [req], result := .error e }
    | none =>
      match env.recv with
      | .error e => { stateAfter := self1, sent := [req], result := .error e }
      | .ok res =>
        match res with
        | .goMap value =>
          { stateAfter := self1, sent := [req], result := .ok value }
        | .nonMap t =>
          { stateAfter := self1, sent := [req],
            result := .error ("Invalid response type: have " ++ t ++
              ", want map[string]interface \x7b\x7d") }

/-! ## Shared helper lemmas -/

lemma ite_lt_eq_max (a b : ℤ) : (if a < b then b else a) = max a b := by
  rw [max_def]
  split <;> split <;> omega

lemma tdiv_two_nonneg {a : ℤ} (h : 0 ≤ a) : 0 ≤ Int.tdiv a 2 :=
  Int.tdiv_nonneg h (by norm_num)

lemma tdiv_two_le_self {a : ℤ} (h : 0 ≤ a) : Int.tdiv a 2 ≤ a := by
  rw [Int.tdiv_eq_ediv h (by norm_num)]
  exact Int.ediv_le_self 2 h

/-- Inversion on a successful `newFromMipmap`: what a returned
orchestrator necessarily records. -/
lemma newFromMipmap_ok_inv (cfg : Config) (inp : NewInputs)
    (compat : Option ℕ) (eth : Ethereum)
    (h : newFromMipmap cfg inp compat = .ok eth) :
    inp.mipmapErr = none ∧
    (cfg.skipBcVersionCheck = false →
      (inp.storedBcVersion = inp.blockChainVersion ∨ inp.storedBcVersion = 0)) ∧
    eth.stampedBcVersion =
      (if cfg.skipBcVersionCheck then none else some inp.blockChainVersion) ∧
    eth.pmMaxPeers = peerCapacity cfg.lightServ cfg.maxPeers cfg.lightPeers := by
  unfold newFromMipmap at h
  cases hm : inp.mipmapErr with
  | some e => rw [hm] at h; exact absurd h (by simp)
  | none =>
    rw [hm] at h
    simp only at h
    by_cases hs : cfg.skipBcVersionCheck
    · rw [if_pos hs] at h
      cases hb : inp.newBlockChain with
      | error e => rw [hb] at h; exact absurd h (by simp)
      | ok head0 =>
        rw [hb] at h
        cases hp : inp.newProtocolManagerErr with
        | some e => rw [hp] at h; exact absurd h (by simp)
        | none =>
          rw [hp] at h
          simp only [Except.ok.injEq] at h
          refine ⟨rfl, by simp [hs], ?_, ?_⟩ <;> simp [← h, hs]
    · rw [if_neg hs] at h
      by_cases hv : inp.storedBcVersion ≠ inp.blockChainVersion ∧
          inp.storedBcVersion ≠ 0
      · rw [if_pos hv] at h; exact absurd h (by simp)
      · rw [if_neg hv] at h
        cases hb : inp.newBlockChain with
        | error e => rw [hb] at h; exact absurd h (by simp)
        | ok head0 =>
          rw [hb] at h
          cases hp : inp.newProtocolManagerErr with
          | some e => rw [hp] at h; exact absurd h (by simp)
          | none =>
            rw [hp] at h
            simp only [Except.ok.injEq] at h
            refine ⟨rfl, fun _ => by tauto, ?_, ?_⟩ <;> simp [← h, hs]

/-- A successful pass through the tail of `New`, spelled out. -/
lemma newFromMipmap_success (cfg : Config) (inp : NewInputs)
    (compat : Option ℕ) (head0 : ℕ)
    (hm : inp.mipmapErr = none)
    (hv : cfg.skipBcVersionCheck = true ∨
      inp.storedBcVersion = inp.blockChainVersion ∨ inp.storedBcVersion = 0)
    (hb : inp.newBlockChain = .ok head0)
    (hp : inp.newProtocolManagerErr = none) :
    newFromMipmap cfg inp compat =
      .ok { headHeight := match compat with
              | some r => SetHead head0 r
              | none => head0
            chainConfigRewritten := match compat with
              | some _ => true
              | none => false
            pmMaxPeers := peerCapacity cfg.lightServ cfg.maxPeers cfg.lightPeers
            stampedBcVersion :=
              if cfg.skipBcVersionCheck then none else some inp.blockChainVersion
            etherbase := cfg.etherbase } := by
  unfold newFromMipmap
  rw [hm]
  simp only
  by_cases hs : cfg.skipBcVersionCheck
  · rw [if_pos hs, hb, hp]
    simp [hs]
  · rw [if_neg hs]
    have hv2 : ¬(inp.storedBcVersion ≠ inp.blockChainVersion ∧
        inp.storedBcVersion ≠ 0) := by
      rcases hv with h | h | h
      · exact absurd h hs
      · tauto
      · tauto
    rw [if_neg hv2, hb, hp]
    simp [hs]

/-! ## The claims -/

/-- C2: with light-serving enabled (`lightServ > 0`) the full-peer
capacity passed to the Protocol Manager is
`max(maxPeers - lightPeers, maxPeers / 2)` (Go integer division);
with light-serving disabled it is `maxPeers` unchanged; at
`maxPeers = 50, lightPeers = 40` it is 25 and at
`maxPeers = 50, lightPeers = 10` it is 40. -/
theorem peerCapacity_formula :
    (∀ lightServ maxPeers lightPeers : ℤ,
      peerCapacity lightServ maxPeers lightPeers =
        if 0 < lightServ then
          max (maxPeers - lightPeers) (Int.tdiv maxPeers 2)
        else maxPeers) ∧
    (∀ (cfg : Config) (inp : NewInputs) (eth : Ethereum),
      New cfg inp = .ok eth →
      eth.pmMaxPeers = peerCapacity cfg.lightServ cfg.maxPeers cfg.lightPeers) ∧
    peerCapacity 1 50 40 = 25 ∧ peerCapacity 1 50 10 = 40 := by
  refine ⟨?_, ?_, by decide, by decide⟩
  · intro lightServ maxPeers lightPeers
    unfold peerCapacity
    rcases lt_or_le 0 lightServ with h | h
    · rw [if_pos h, if_pos h]
      exact ite_lt_eq_max _ _
    · rw [if_neg (by omega), if_neg (by omega)]
  · intro cfg inp eth h
    unfold New at h
    cases ho : inp.openDbErr with
    | some e => rw [ho] at h; exact absurd h (by simp)
    | none =>
      rw [ho] at h
      cases hg : inp.genesisErr with
      | none => rw [hg] at h; exact (newFromMipmap_ok_inv _ _ _ _ h).2.2.2
      | some ge =>
        rw [hg] at h
        cases ge with
        | compat r => exact (newFromMipmap_ok_inv _ _ _ _ h).2.2.2
        | other m => exact absurd h (by simp)

/-- C2 witness: the Protocol-Manager conjunct applied to a concrete
successful construction. -/
theorem peerCapacity_formula_witness :
    ∃ eth : Ethereum,
      New { skipBcVersionCheck := false, lightServ := 1, lightPeers := 40,
            maxPeers := 50, etherbase := 0 }
          { openDbErr := none, genesisErr := none, mipmapErr := none,
            storedBcVersion := 0, blockChainVersion := 3,
            newBlockChain := .ok 0, newProtocolManagerErr := none } =
        .ok eth ∧ eth.pmMaxPeers = 25 := by
  refine ⟨{ headHeight := 0, chainConfigRewritten := false, pmMaxPeers := 25,
            stampedBcVersion := some 3, etherbase := 0 }, by rfl, ?_⟩
  have h := peerCapacity_formula.2.1
    { skipBcVersionCheck := false, lightServ := 1, lightPeers := 40,
      maxPeers := 50, etherbase := 0 }
    { openDbErr := none, genesisErr := none, mipmapErr := none,
      storedBcVersion := 0, blockChainVersion := 3,
      newBlockChain := .ok 0, newProtocolManagerErr := none }
    { headHeight := 0, chainConfigRewritten := false, pmMaxPeers := 25,
      stampedBcVersion := some 3, etherbase := 0 } (by rfl)
  rw [h]
  decide

/-- C7 counterexample: the balancing result can exceed the configured
total. With light-serving enabled, `maxPeers = 50` and
`lightPeers = -10` (a Go `int` field, so negative values are inputs),
the computed capacity is 60 > 50. -/
theorem peerCapacity_over_total :
    peerCapacity 1 50 (-10) = 60 ∧ ¬peerCapacity 1 50 (-10) ≤ 50 := by
  decide

/-- C7 (amended): for non-negative `maxPeers` and `lightPeers` the
peer-capacity balancing result is never negative and never exceeds the
configured total `maxPeers`, whatever the `lightServ` setting. -/
theorem peerCapacity_bounds :
    ∀ lightServ maxPeers lightPeers : ℤ,
      0 ≤ maxPeers → 0 ≤ lightPeers →
      0 ≤ peerCapacity lightServ maxPeers lightPeers ∧
      peerCapacity lightServ maxPeers lightPeers ≤ maxPeers := by
  intro lightServ maxPeers lightPeers hmp hlp
  unfold peerCapacity
  rcases lt_or_le 0 lightServ with h | h
  · rw [if_pos h]
    have h1 := tdiv_two_nonneg hmp
    have h2 := tdiv_two_le_self hmp
    dsimp only
    split <;> omega
  · rw [if_neg (by omega)]
    omega

/-- C7 witness: the bounds at `lightServ = 1, maxPeers = 50,
lightPeers = 10`. -/
theorem peerCapacity_bounds_witness :
    0 ≤ peerCapacity 1 50 10 ∧ peerCapacity 1 50 10 ≤ 50 :=
  peerCapacity_bounds 1 50 10 (by decide) (by decide)

/-- C9 counterexample: core/events.go declares `ChainEvent{Block, Hash,
Logs}`, an event kind outside the twelve listed by the specification,
so the vocabulary is not exactly the listed twelve. -/
theorem chainEvent_outside_spec_kinds :
    (CoreEvent.chainEvent ⟨0⟩ ⟨0⟩ ⟨0⟩).kind ∉ specEventKinds ∧
    specEventKinds.length = 12 := by
  decide

/-- C9 (amended): the event vocabulary is a closed tagged set of exactly
thirteen kinds — the twelve listed plus `ChainEvent{block, hash, logs}`:
every event's kind is in the enumeration, the enumeration has no
duplicates, and every kind in it is realized by some event. -/
theorem event_vocabulary_closed :
    (∀ e : CoreEvent, e.kind ∈ codeEventKinds) ∧
    codeEventKinds.Nodup ∧
    codeEventKinds.length = 13 ∧
    (∀ k : EventKind, ∃ e : CoreEvent, e.kind = k) := by
  refine ⟨?_, by decide, by decide, ?_⟩
  · intro e
    cases e <;> simp [CoreEvent.kind, codeEventKinds]
  · intro k
    cases k with
    | txPre => exact ⟨.txPreEvent ⟨0⟩, rfl⟩
    | txPost => exact ⟨.txPostEvent ⟨0⟩, rfl⟩
    | newBlock => exact ⟨.newBlockEvent ⟨0⟩, rfl⟩
    | newMined => exact ⟨.newMinedBlockEvent ⟨0⟩, rfl⟩
    | chainSplit => exact ⟨.chainSplitEvent ⟨0⟩ ⟨0⟩, rfl⟩
    | chain => exact ⟨.chainEvent ⟨0⟩ ⟨0⟩ ⟨0⟩, rfl⟩
    | chainSide => exact ⟨.chainSideEvent ⟨0⟩ ⟨0⟩, rfl⟩
    | pendingBlock => exact ⟨.pendingBlockEvent ⟨0⟩ ⟨0⟩, rfl⟩
    | chainUncle => exact ⟨.chainUncleEvent ⟨0⟩, rfl⟩
    | chainHead => exact ⟨.chainHeadEvent ⟨0⟩, rfl⟩
    | gasPrice => exact ⟨.gasPriceChanged ⟨0⟩, rfl⟩
    | miningStarted => exact ⟨.startMining, rfl⟩
    | miningStopped => exact ⟨.topMining, rfl⟩

/-- C1: `Stop` performs its teardown steps in exactly this order — halt
the sequential-key upgrade (when one is running), stop the chain store,
stop the protocol manager, stop the light-serving add-on (when
present), stop the transaction pool, stop the miner, stop the Event
Multiplexer, close the database, signal the shutdown broadcast — so the
database is closed only after every subsystem, and the multiplexer only
after all its producers, have been stopped. -/
theorem stop_teardown_order :
    ∀ (v : StopView) (outcomes : StopOutcomes) (ch : ShutdownChan),
      (Stop v outcomes ch).trace =
        (if v.hasDbUpgrade then [StopStep.haltDbUpgrade] else []) ++
        [StopStep.stopChainStore, StopStep.stopProtocolManager] ++
        (if v.hasLesServer then [StopStep.stopLesServer] else []) ++
        [StopStep.stopTxPool, StopStep.stopMiner, StopStep.stopEventMux,
         StopStep.closeDatabase, StopStep.signalShutdown] := by
  intro v outcomes ch
  cases hd : v.hasDbUpgrade <;> cases hl : v.hasLesServer <;>
    simp [Stop, hd, hl]

/-- C6 counterexample: with a database-close failure reported by the
collaborator, `Stop` still returns `nil` (`none`) — the step's error is
not surfaced to the caller. -/
theorem stop_error_not_surfaced :
    (Stop { hasDbUpgrade := true, hasLesServer := true }
        { chainStoreErr := none, protocolManagerErr := none,
          lesServerErr := none, txPoolErr := none, minerErr := none,
          eventMuxErr := none, dbCloseErr := some "leveldb: closed" }
        { closeCount := 0 }).returned = none := by
  rfl

/-- C6 (amended): `Stop`'s steps are best-effort cleanup — an error
reported by any step is discarded (never surfaced: `Stop` always
returns `nil`) and does not prevent the subsequent steps from running
(the execution is identical whatever the steps report), and `Stop` on a
started orchestrator signals the shutdown broadcast exactly once. -/
theorem stop_best_effort :
    ∀ (v : StopView) (outcomes outcomes2 : StopOutcomes)
      (ch : ShutdownChan),
      (Stop v outcomes ch).returned = none ∧
      Stop v outcomes ch = Stop v outcomes2 ch ∧
      (Stop v outcomes ch).chanAfter.closeCount = ch.closeCount + 1 ∧
      (Stop v outcomes ch).trace.count StopStep.signalShutdown = 1 := by
  intro v outcomes outcomes2 ch
  refine ⟨rfl, rfl, rfl, ?_⟩
  cases hd : v.hasDbUpgrade <;> cases hl : v.hasLesServer <;>
    simp [Stop, hd, hl]

/-- C3: a configuration-compatibility condition from genesis resolution
with rewind target `r` is not fatal — when the remaining construction
steps succeed, `New` returns an orchestrator whose head height is at
most `r`, with the new chain configuration persisted; any other non-nil
genesis error aborts construction with that error. -/
theorem genesis_compat_recoverable :
    ∀ (cfg : Config) (inp : NewInputs) (r : ℕ),
      inp.openDbErr = none →
      (inp.genesisErr = some (.compat r) →
        inp.mipmapErr = none →
        (cfg.skipBcVersionCheck = true ∨
          inp.storedBcVersion = inp.blockChainVersion ∨
          inp.storedBcVersion = 0) →
        ∀ head0 : ℕ, inp.newBlockChain = .ok head0 →
        inp.newProtocolManagerErr = none →
        ∃ eth : Ethereum, New cfg inp = .ok eth ∧
          eth.headHeight ≤ r ∧ eth.chainConfigRewritten = true) ∧
      (∀ m : String, inp.genesisErr = some (.other m) →
        New cfg inp = .error (.genesis m)) := by
  intro cfg inp r ho
  constructor
  · intro hg hm hv head0 hb hp
    have hnew : New cfg inp = newFromMipmap cfg inp (some r) := by
      unfold New
      rw [ho, hg]
    rw [hnew, newFromMipmap_success cfg inp (some r) head0 hm hv hb hp]
    exact ⟨_, rfl, min_le_right _ _, rfl⟩
  · intro m hg
    unfold New
    rw [ho, hg]

/-- C3 witness: a compatibility condition with rewind target 5 and a
chain store initially at height 10 yields a successful construction
with head height at most 5. -/
theorem genesis_compat_recoverable_witness :
    ∃ eth : Ethereum,
      New { skipBcVersionCheck := false, lightServ := 0, lightPeers := 0,
            maxPeers := 25, etherbase := 0 }
          { openDbErr := none, genesisErr := some (.compat 5),
            mipmapErr := none, storedBcVersion := 3, blockChainVersion := 3,
            newBlockChain := .ok 10, newProtocolManagerErr := none } =
        .ok eth ∧ eth.headHeight ≤ 5 ∧ eth.chainConfigRewritten = true :=
  (genesis_compat_recoverable _ _ 5 rfl).1 rfl rfl (Or.inr (Or.inl rfl))
    10 rfl rfl

/-- C5: unless the schema-version check is skipped, a stored schema
version differing from the expected one and not 0 fails construction
with an error naming both versions and instructing the operator to run
the explicit upgrade procedure; a matching or zero stored version
passes the check and the current version is stamped. -/
theorem schema_version_check :
    ∀ (cfg : Config) (inp : NewInputs),
      inp.openDbErr = none →
      inp.genesisErr = none →
      inp.mipmapErr = none →
      cfg.skipBcVersionCheck = false →
      ((inp.storedBcVersion ≠ inp.blockChainVersion ∧
          inp.storedBcVersion ≠ 0) →
        New cfg inp =
          .error (.versionMismatch inp.storedBcVersion inp.blockChainVersion) ∧
        (NewError.versionMismatch inp.storedBcVersion
            inp.blockChainVersion).message =
          "Blockchain DB version mismatch (" ++ toString inp.storedBcVersion ++
            " / " ++ toString inp.blockChainVersion ++
            "). Run gexp upgradedb.\n") ∧
      ((inp.storedBcVersion = inp.blockChainVersion ∨
          inp.storedBcVersion = 0) →
        (∀ a b : ℕ, New cfg inp ≠ .error (.versionMismatch a b)) ∧
        (∀ eth : Ethereum, New cfg inp = .ok eth →
          eth.stampedBcVersion = some inp.blockChainVersion)) := by
  intro cfg inp ho hg hm hs
  have hnew : New cfg inp = newFromMipmap cfg inp none := by
    unfold New
    rw [ho, hg]
  constructor
  · intro hv
    refine ⟨?_, rfl⟩
    rw [hnew]
    unfold newFromMipmap
    rw [hm]
    simp only
    rw [if_neg (by simp [hs]), if_pos hv]
  · intro hv
    have hv2 : ¬(inp.storedBcVersion ≠ inp.blockChainVersion ∧
        inp.storedBcVersion ≠ 0) := by tauto
    constructor
    · intro a b hcontra
      rw [hnew] at hcontra
      unfold newFromMipmap at hcontra
      rw [hm] at hcontra
      simp only at hcontra
      rw [if_neg (by simp [hs]), if_neg hv2] at hcontra
      cases hb : inp.newBlockChain with
      | error e => rw [hb] at hcontra; simp at hcontra
      | ok head0 =>
        rw [hb] at hcontra
        cases hp : inp.newProtocolManagerErr with
        | some e => rw [hp] at hcontra; simp at hcontra
        | none => rw [hp] at hcontra; simp at hcontra
    · intro eth hok
      rw [hnew] at hok
      have h := (newFromMipmap_ok_inv cfg inp none eth hok).2.2.1
      rw [h, if_neg (by simp [hs])]

/-- C5 witness: stored version 2 against expected version 3, check not
skipped, fails with the mismatch error naming 2 and 3; stored version 0
passes the check and version 3 is stamped. -/
theorem schema_version_check_witness :
    (New { skipBcVersionCheck := false, lightServ := 0, lightPeers := 0,
           maxPeers := 25, etherbase := 0 }
         { openDbErr := none, genesisErr := none, mipmapErr := none,
           storedBcVersion := 2, blockChainVersion := 3,
           newBlockChain := .ok 0, newProtocolManagerErr := none } =
       .error (.versionMismatch 2 3) ∧
     (NewError.versionMismatch 2 3).message =
       "Blockchain DB version mismatch (2 / 3). Run gexp upgradedb.\n") ∧
    (∀ eth : Ethereum,
      New { skipBcVersionCheck := false, lightServ := 0, lightPeers := 0,
            maxPeers := 25, etherbase := 0 }
          { openDbErr := none, genesisErr := none, mipmapErr := none,
            storedBcVersion := 0, blockChainVersion := 3,
            newBlockChain := .ok 0, newProtocolManagerErr := none } =
        .ok eth → eth.stampedBcVersion = some 3) := by
  constructor
  · have h := (schema_version_check
      { skipBcVersionCheck := false, lightServ := 0, lightPeers := 0,
        maxPeers := 25, etherbase := 0 }
      { openDbErr := none, genesisErr := none, mipmapErr := none,
        storedBcVersion := 2, blockChainVersion := 3,
        newBlockChain := .ok 0, newProtocolManagerErr := none }
      rfl rfl rfl rfl).1 (by simp)
    exact h
  · intro eth
    exact ((schema_version_check
      { skipBcVersionCheck := false, lightServ := 0, lightPeers := 0,
        maxPeers := 25, etherbase := 0 }
      { openDbErr := none, genesisErr := none, mipmapErr := none,
        storedBcVersion := 0, blockChainVersion := 3,
        newBlockChain := .ok 0, newProtocolManagerErr := none }
      rfl rfl rfl rfl).2 (Or.inr rfl)).2 eth

/-- C4: etherbase resolution returns the explicitly configured reward
address when one is set; otherwise the first account of the first
wallet; otherwise the missing-reward-address error. `StartMining`
resolves first and, on a missing address, returns the error without
launching a mining task; on success it launches the task with the
resolved address. -/
theorem etherbase_resolution :
    ∀ (s : MiningView) (threads : ℤ),
      (s.etherbase ≠ zeroAddress → Etherbase s = .ok s.etherbase) ∧
      (s.etherbase = zeroAddress →
        ∀ w ws, s.accountManager.wallets = w :: ws →
        ∀ a as, w.accounts = a :: as → Etherbase s = .ok a.address) ∧
      (s.etherbase = zeroAddress →
        (s.accountManager.wallets = [] ∨
          ∃ w ws, s.accountManager.wallets = w :: ws ∧ w.accounts = []) →
        Etherbase s = .error "etherbase address must be explicitly specified") ∧
      (∀ e, Etherbase s = .error e →
        StartMining s threads = (.error ("etherbase missing: " ++ e), none)) ∧
      (∀ a, Etherbase s = .ok a →
        StartMining s threads = (.ok (), some (a, threads))) := by
  intro s threads
  refine ⟨?_, ?_, ?_, ?_, ?_⟩
  · intro h
    unfold Etherbase
    rw [if_pos h]
  · intro h w ws hw a as ha
    unfold Etherbase
    rw [if_neg (by simp [h]), hw]
    dsimp only
    rw [ha]
  · intro h hcase
    unfold Etherbase
    rw [if_neg (by simp [h])]
    rcases hcase with hnil | ⟨w, ws, hw, ha⟩
    · rw [hnil]
    · rw [hw]
      dsimp only
      rw [ha]
  · intro e he
    unfold StartMining
    rw [he]
  · intro a ha
    unfold StartMining
    rw [ha]

/-- C4 witness: no configured reward address and no wallets — resolution
fails with the missing-address error and `StartMining` launches no
task. -/
theorem etherbase_resolution_witness :
    Etherbase { etherbase := 0, accountManager := { wallets := [] } } =
      .error "etherbase address must be explicitly specified" ∧
    StartMining { etherbase := 0, accountManager := { wallets := [] } } 4 =
      (.error ("etherbase missing: " ++
        "etherbase address must be explicitly specified"), none) := by
  have h := etherbase_resolution
    { etherbase := 0, accountManager := { wallets := [] } } 4
  have h1 := h.2.2.1 rfl (Or.inl rfl)
  exact ⟨h1, h.2.2.2.1 _ h1⟩

/-- C10: a configured reward address equal to the all-zero address is
indistinguishable from an unset one — resolution skips it and falls
through to the first wallet account or the missing-address error, so a
successful resolution under a zero configuration always returns a
wallet account, and any mining task started under a zero configuration
uses a wallet account as its reward address. -/
theorem etherbase_zero_fallthrough :
    ∀ s : MiningView, s.etherbase = zeroAddress →
      (Etherbase s =
        match s.accountManager.wallets with
        | [] => .error "etherbase address must be explicitly specified"
        | w :: _ =>
          match w.accounts with
          | [] => .error "etherbase address must be explicitly specified"
          | a :: _ => .ok a.address) ∧
      (∀ a : ℕ, Etherbase s = .ok a →
        ∃ w ws as, s.accountManager.wallets = w :: ws ∧
          w.accounts = { address := a } :: as) ∧
      (∀ (threads : ℤ) (a : ℕ),
        StartMining s threads = (.ok (), some (a, threads)) →
        ∃ w ws as, s.accountManager.wallets = w :: ws ∧
          w.accounts = { address := a } :: as) := by
  intro s h
  have hfall : Etherbase s =
      match s.accountManager.wallets with
      | [] => .error "etherbase address must be explicitly specified"
      | w :: _ =>
        match w.accounts with
        | [] => .error "etherbase address must be explicitly specified"
        | a :: _ => .ok a.address := by
    unfold Etherbase
    rw [if_neg (by simp [h])]
    cases s.accountManager.wallets with
    | nil => rfl
    | cons w ws =>
      dsimp only
      cases w.accounts with
      | nil => rfl
      | cons a as => rfl
  have hok : ∀ a : ℕ, Etherbase s = .ok a →
      ∃ w ws as, s.accountManager.wallets = w :: ws ∧
        w.accounts = { address := a } :: as := by
    intro a ha
    rw [hfall] at ha
    cases hw : s.accountManager.wallets with
    | nil => rw [hw] at ha; simp at ha
    | cons w ws =>
      rw [hw] at ha
      dsimp only at ha
      cases hacc : w.accounts with
      | nil => rw [hacc] at ha; simp at ha
      | cons a0 as =>
        rw [hacc] at ha
        simp only [Except.ok.injEq] at ha
        exact ⟨w, ws, as, rfl, by rw [hacc, ← ha]⟩
  refine ⟨hfall, hok, ?_⟩
  intro threads a hsm
  unfold StartMining at hsm
  cases he : Etherbase s with
  | error e => rw [he] at hsm; simp at hsm
  | ok eb =>
    rw [he] at hsm
    simp only [Prod.mk.injEq, Option.some.injEq, true_and] at hsm
    exact hok a (hsm.1 ▸ he)

/-- C10 witness: with a configured zero address and one wallet holding
account 7, resolution returns 7 — the wallet account, not the
configured zero. -/
theorem etherbase_zero_fallthrough_witness :
    Etherbase { etherbase := 0,
                accountManager :=
                  { wallets := [{ accounts := [{ address := 7 }] }] } } =
      .ok 7 ∧
    ∃ w ws as,
      ({ etherbase := 0,
         accountManager :=
           { wallets := [{ accounts := [{ address := 7 }] }] } } :
        MiningView).accountManager.wallets = w :: ws ∧
      w.accounts = { address := 7 } :: as := by
  have h := etherbase_zero_fallthrough
    { etherbase := 0,
      accountManager := { wallets := [{ accounts := [{ address := 7 }] }] } }
    rfl
  exact ⟨h.1, h.2.1 7 h.1⟩

/-- C8: `Call` issues exactly one JSON-RPC 2.0 request — id (the
incremented wrapping counter), literal `"2.0"`, the given method, and
the marshaled parameters — and returns an error exactly when parameter
marshaling fails, the send fails, the receive fails, or the received
response is not a key-value map (the error then naming the offending
type); otherwise it returns the received map. -/
theorem call_request_shape :
    ∀ (env : ClientEnv) (self : Xeth) (method : String),
      (∀ e, env.marshal = .error e →
        Call env self method =
          { stateAfter := self, sent := [], result := .error e }) ∧
      (∀ data, env.marshal = .ok data →
        ∀ req : Request,
          req = { id := (self.reqId + 1) % 2 ^ 32, jsonrpc := "2.0",
                  method := method, params := data } →
          (Call env self method).sent = [req] ∧
          (∀ e, env.send req = some e →
            (Call env self method).result = .error e) ∧
          (env.send req = none →
            (∀ e, env.recv = .error e →
              (Call env self method).result = .error e) ∧
            (∀ t, env.recv = .ok (.nonMap t) →
              (Call env self method).result =
                .error ("Invalid response type: have " ++ t ++
                  ", want map[string]interface \x7b\x7d")) ∧
            (∀ m, env.recv = .ok (.goMap m) →
              (Call env self method).result = .ok m))) := by
  intro env self method
  constructor
  · intro e he
    unfold Call
    rw [he]
  · intro data hd req hreq
    refine ⟨?_, ?_, ?_⟩
    · unfold Call
      rw [hd]
      dsimp only
      rw [← hreq]
      cases hs : env.send req with
      | some e => rfl
      | none =>
        cases hr : env.recv with
        | error e => rfl
        | ok v =>
          cases v with
          | goMap m => rfl
          | nonMap t => rfl
    · intro e hs
      unfold Call
      rw [hd]
      dsimp only
      rw [← hreq, hs]
    · intro hs
      refine ⟨?_, ?_, ?_⟩
      · intro e hr
        unfold Call
        rw [hd]
        dsimp only
        rw [← hreq, hs]
        dsimp only
        rw [hr]
      · intro t hr
        unfold Call
        rw [hd]
        dsimp only
        rw [← hreq, hs]
        dsimp only
        rw [hr]
      · intro m hr
        unfold Call
        rw [hd]
        dsimp only
        rw [← hreq, hs]
        dsimp only
        rw [hr]

/-- C8 witness: a transport that accepts the request and answers with a
map — `Call` sends the assembled JSON-RPC 2.0 request with id 1 and
returns the map. -/
theorem call_request_shape_witness :
    (Call { marshal := .ok [1], send := fun _ => none,
            recv := .ok (.goMap [("result", 5)]) }
        { reqId := 0 } "exp_coinbase").sent =
      [{ id := 1, jsonrpc := "2.0", method := "exp_coinbase",
         params := [1] }] ∧
    (Call { marshal := .ok [1], send := fun _ => none,
            recv := .ok (.goMap [("result", 5)]) }
        { reqId := 0 } "exp_coinbase").result = .ok [("result", 5)] := by
  have h := (call_request_shape
    { marshal := .ok [1], send := fun _ => none,
      recv := .ok (.goMap [("result", 5)]) }
    { reqId := 0 } "exp_coinbase").2 [1] rfl
    { id := 1, jsonrpc := "2.0", method := "exp_coinbase", params := [1] }
    (by decide)
  exact ⟨h.1, (h.2.2 rfl).2.2 [("result", 5)] rfl⟩

end Expanse
